import Mathlib

/-!
Verification of the `windtools` repository's single source file,
`src/windtools/io/binary.py`, which defines the class `BinaryFile`: a thin
wrapper around a binary file handle exposing fixed-width scalar reads and
writes built on Python's `struct` module.

The shallow embedding below models:
 - the byte stream backing the file handle as a list of bytes plus a cursor
   (`Stream`), with `fread`/`fwrite` reproducing Python binary-file
   `read`/`write` semantics (a read near end-of-stream returns the bytes that
   remain and advances the cursor by that many);
 - Python exception kinds that the code can raise (`PyErr`);
 - the `struct` module's pack/unpack for the format strings this repository
   actually builds (`StructFmt`), on a little-endian host (the `=`-free native
   mode of CPython on x86-64 Linux: `b`/`h`/`i`/`l` are signed integers of
   1/2/4/8 bytes, `f`/`d` are IEEE-754 binary32/binary64);
 - every `BinaryFile` method the claims touch, translated one-to-one.

Python strings are modeled as `List Char`; Python tuples and lists of decoded
values are both modeled as `List PyVal`.
-/

set_option autoImplicit false

namespace WindTools

/-- Kinds of Python exceptions that the modeled code can raise:
`struct.error` from the packing library, `IOError` (the translation target in
`BinaryFile.unpack`), `UnicodeDecodeError` from `bytes.decode`, and
`IndexError` from tuple indexing. -/
inductive PyErr
  | structError
  | ioError
  | unicodeDecodeError
  | indexError
  deriving DecidableEq, Repr

/-- Exact value of a Python / numpy floating-point object: a finite rational
(every IEEE-754 finite value is rational), an infinity, or NaN. -/
inductive FVal
  | finite : ℚ → FVal
  | inf
  | neginf
  | nan
  deriving DecidableEq, Repr

/-- A value produced by an unpack or a dtype conversion: a Python `int`, a
Python `float` (IEEE binary64, carried here by its exact value), or a numpy
floating scalar `np.float32`/`np.float64` (carried by its exact value and its
bit width). -/
inductive PyVal
  | intv : Int → PyVal
  | floatv : FVal → PyVal
  | npfloatv : FVal → Nat → PyVal
  deriving DecidableEq, Repr

/-- The byte stream behind the open file handle `self.f`: its contents and the
current position. -/
structure Stream where
  data : List Nat
  pos : Nat
  deriving DecidableEq, Repr

/-- Python `self.f.read(n)` on a binary file: returns the next `n` bytes, or
all remaining bytes when fewer than `n` remain (empty at end-of-stream), and
advances the position by the number of bytes actually returned. -/
def fread (s : Stream) (n : Nat) : List Nat × Stream :=
  ((s.data.drop s.pos).take n, ⟨s.data, s.pos + ((s.data.drop s.pos).take n).length⟩)

/-- Python `self.f.write(bs)` on a binary file: overwrites bytes starting at
the current position and advances the position past them. -/
def fwrite (s : Stream) (bs : List Nat) : Stream :=
  ⟨s.data.take s.pos ++ bs ++ s.data.drop (s.pos + bs.length), s.pos + bs.length⟩

/-- Value of a little-endian byte list. -/
def leNat : List Nat → Nat
  | [] => 0
  | b :: bs => b + 256 * leNat bs

/-- Little-endian bytes of `u`, `w` bytes wide (truncating above `256 ^ w`). -/
def leBytes : Nat → Nat → List Nat
  | 0, _ => []
  | w + 1, u => u % 256 :: leBytes w (u / 256)

/-- Two's-complement representative of the signed integer `v` in `w` bytes. -/
def toUnsigned (w : Nat) (v : Int) : Nat :=
  (v % ((2 : Int) ^ (8 * w))).toNat

/-- Signed reading of the `w`-byte two's-complement representative `u`. -/
def toSigned (w : Nat) (u : Nat) : Int :=
  if u < 2 ^ (8 * w - 1) then (u : Int) else (u : Int) - 2 ^ (8 * w)

/-- Exact value of the IEEE-754 binary32 datum whose (little-endian) encoding
is the 32-bit pattern `u`: sign bit, 8 exponent bits, 23 fraction bits. -/
def decodeF32 (u : Nat) : FVal :=
  let s : Nat := u / 2 ^ 31 % 2
  let e : Nat := u / 2 ^ 23 % 2 ^ 8
  let f : Nat := u % 2 ^ 23
  if e = 255 then
    if f = 0 then (if s = 1 then .neginf else .inf) else .nan
  else
    let sgn : ℚ := if s = 1 then -1 else 1
    if e = 0 then .finite (sgn * (f : ℚ) * (2 : ℚ) ^ (-149 : ℤ))
    else .finite (sgn * ((2 : ℚ) ^ (23 : ℕ) + (f : ℚ)) * (2 : ℚ) ^ ((e : ℤ) - 150))

/-- Exact value of the IEEE-754 binary64 datum whose encoding is the 64-bit
pattern `u`: sign bit, 11 exponent bits, 52 fraction bits. -/
def decodeF64 (u : Nat) : FVal :=
  let s : Nat := u / 2 ^ 63 % 2
  let e : Nat := u / 2 ^ 52 % 2 ^ 11
  let f : Nat := u % 2 ^ 52
  if e = 2047 then
    if f = 0 then (if s = 1 then .neginf else .inf) else .nan
  else
    let sgn : ℚ := if s = 1 then -1 else 1
    if e = 0 then .finite (sgn * (f : ℚ) * (2 : ℚ) ^ (-1074 : ℤ))
    else .finite (sgn * ((2 : ℚ) ^ (52 : ℕ) + (f : ℚ)) * (2 : ℚ) ^ ((e : ℤ) - 1075))

/-- The `struct` format strings this repository builds. `code c` is a bare
format character such as `"i"`; `repCount n c` is the string produced by
`'{:d}c'.format(n)`, a decimal repeat count followed by the character;
`braceLiteral c` is the malformed literal `'{:d}c'` itself, passed verbatim
when `.format` was never called (as `read_int1` does for `N > 1`) — its brace
and colon characters are not valid `struct` syntax. -/
inductive StructFmt
  | code : Char → StructFmt
  | repCount : Nat → Char → StructFmt
  | braceLiteral : Char → StructFmt
  deriving DecidableEq, Repr

/-- Byte size of a `struct` format character in native mode on the x86-64
Linux host (`l` is the 8-byte C `long`); `none` for characters `struct`
rejects. Only the characters this repository uses are listed. -/
def sizeOfCode : Char → Option Nat
  | 'b' => some 1
  | 'h' => some 2
  | 'i' => some 4
  | 'l' => some 8
  | 'f' => some 4
  | 'd' => some 8
  | _ => none

/-- Decoding of one `w`-byte chunk under format character `c`: `f` and `d`
decode as IEEE floats into a Python `float`, the integer codes decode as
two's-complement signed integers. -/
def decodeVal (c : Char) (w : Nat) (chunk : List Nat) : PyVal :=
  if c = 'f' then .floatv (decodeF32 (leNat chunk))
  else if c = 'd' then .floatv (decodeF64 (leNat chunk))
  else .intv (toSigned w (leNat chunk))

/-- Decoding of `n` consecutive `w`-byte chunks of the buffer. -/
def decodeSeq (c : Char) (w : Nat) : Nat → List Nat → List PyVal
  | 0, _ => []
  | n + 1, buf => decodeVal c w (buf.take w) :: decodeSeq c w n (buf.drop w)

/-- `struct.unpack` with a repeat count `n` of the character `c`: requires the
buffer length to equal `calcsize` exactly, otherwise raises `struct.error`. -/
def unpackCount (n : Nat) (c : Char) (buf : List Nat) : Except PyErr (List PyVal) :=
  match sizeOfCode c with
  | none => .error .structError
  | some w => if buf.length = n * w then .ok (decodeSeq c w n buf) else .error .structError

/-- `struct.unpack(fmt, buf)` for the format strings this repository builds.
The malformed brace literal always raises `struct.error` (bad char in struct
format). -/
def structUnpack (fmt : StructFmt) (buf : List Nat) : Except PyErr (List PyVal) :=
  match fmt with
  | .code c => unpackCount 1 c buf
  | .repCount n c => unpackCount n c buf
  | .braceLiteral _ => .error .structError

/-- Byte size of an integer format character (`b`/`h`/`i`/`l`); the float
codes are excluded because no verified claim exercises `write_float` or
`write_double`, whose packing (with rounding) is therefore not modeled. -/
def intWidthOfCode : Char → Option Nat
  | 'b' => some 1
  | 'h' => some 2
  | 'i' => some 4
  | 'l' => some 8
  | _ => none

/-- `struct.pack` of one signed integer of width `w`: raises `struct.error`
when the argument is outside the signed `w`-byte range, otherwise produces its
`w` little-endian two's-complement bytes. -/
def packInt (w : Nat) (v : Int) : Except PyErr (List Nat) :=
  if -((2 : Int) ^ (8 * w - 1)) ≤ v ∧ v < (2 : Int) ^ (8 * w - 1)
  then .ok (leBytes w (toUnsigned w v)) else .error .structError

/-- Packing of a run of signed integers of width `w`, concatenating the bytes;
fails with `struct.error` as soon as one value is out of range. -/
def packSeq (w : Nat) : List Int → Except PyErr (List Nat)
  | [] => .ok []
  | v :: vs =>
    match packInt w v, packSeq w vs with
    | .ok bs, .ok rest => .ok (bs ++ rest)
    | .error e, _ => .error e
    | .ok _, .error e => .error e

/-- `struct.pack(fmt, *args)` for integer formats: the number of arguments
must match the format's count. -/
def structPack (fmt : StructFmt) (args : List Int) : Except PyErr (List Nat) :=
  match fmt with
  | .code c =>
    match intWidthOfCode c with
    | none => .error .structError
    | some w => if args.length = 1 then packSeq w args else .error .structError
  | .repCount n c =>
    match intWidthOfCode c with
    | none => .error .structError
    | some w => if args.length = n then packSeq w args else .error .structError
  | .braceLiteral _ => .error .structError

/-- Shape of a typed read's result: a bare scalar when `N = 1`, an ordered
sequence otherwise (Python tuples and lists are both modeled as lists). -/
inductive RRes
  | one : PyVal → RRes
  | many : List PyVal → RRes
  deriving DecidableEq, Repr

/-- Python tuple indexing `t[0]` as applied by the single-scalar read paths:
`IndexError` on an empty tuple. -/
def scalarRes : Except PyErr (List PyVal) → Except PyErr RRes
  | .ok (v :: _) => .ok (.one v)
  | .ok [] => .error .indexError
  | .error e => .error e

/-- Python tuple slicing `t[:N]` as applied by the multi-scalar read paths. -/
def sliceRes (N : Nat) : Except PyErr (List PyVal) → Except PyErr RRes
  | .ok vs => .ok (.many (vs.take N))
  | .error e => .error e

/-- The `dtype` argument of `read_float`: the Python builtin `float`
(the default), `np.float32`, or `np.float64`. -/
inductive DType
  | pyfloat
  | npf32
  | npf64
  deriving DecidableEq, Repr

/-- Exact numeric value of a `PyVal`. -/
def valOf : PyVal → FVal
  | .intv i => .finite (i : ℚ)
  | .floatv f => f
  | .npfloatv f _ => f

/-- Application of `dtype(x)` to an unpacked value. `float(x)` on a Python
float returns it unchanged; `np.float64(x)` represents the same binary64 value
exactly; `np.float32(x)` rounds to binary32, which is exact on every argument
the code ever passes it — in this file its argument is always the result of a
binary32 (`'f'`) unpack, whose value is binary32-representable by
construction — so all three conversions preserve the exact value and differ
only in the representation of the result. -/
def applyDType : DType → PyVal → PyVal
  | .pyfloat, v => .floatv (valOf v)
  | .npf32, v => .npfloatv (valOf v) 32
  | .npf64, v => .npfloatv (valOf v) 64

namespace BinaryFile

/-- `BinaryFile.read`: `return self.f.read(N)` (the Python default is
`N=1`; the count is passed explicitly here). -/
def read (s : Stream) (N : Nat) : List Nat × Stream :=
  fread s N

/-- `BinaryFile.unpack`:
`try: return struct.unpack(*args) except struct.error: raise IOError`. -/
def unpack (fmt : StructFmt) (buf : List Nat) : Except PyErr (List PyVal) :=
  match structUnpack fmt buf with
  | .ok vs => .ok vs
  | .error e => if e = .structError then .error .ioError else .error e

/-- `BinaryFile.read_char`: `return self.f.read(1).decode(encoding)`, for the
default `encoding='utf-8'` (the only encoding the claims exercise). A single
byte below `0x80` decodes to one ASCII character; the empty read at
end-of-stream decodes to the empty string; a single byte at or above `0x80` is
never a complete UTF-8 sequence, so decoding raises `UnicodeDecodeError`. -/
def decodeOneUtf8 : List Nat → Except PyErr (List Char)
  | [] => .ok []
  | [b] => if b < 128 then .ok [Char.ofNat b] else .error .unicodeDecodeError
  | _ :: _ :: _ => .error .unicodeDecodeError

/-- `BinaryFile.read_char` (see `decodeOneUtf8` for the decoding step). -/
def read_char (s : Stream) : (Except PyErr (List Char)) × Stream :=
  (decodeOneUtf8 (fread s 1).1, (fread s 1).2)

theorem read_char_eof (s : Stream) (h : s.data.length ≤ s.pos) :
    read_char s = (.ok [], ⟨s.data, s.pos⟩) := by
  have hd : s.data.drop s.pos = [] := by
    simp [List.drop_eq_nil_iff]; omega
  simp [read_char, fread, hd, decodeOneUtf8]

theorem read_char_cons {s : Stream} {x : Nat} {xs : List Nat}
    (hx : s.data.drop s.pos = x :: xs) :
    read_char s = (decodeOneUtf8 [x], ⟨s.data, s.pos + 1⟩) := by
  simp [read_char, fread, hx]

theorem read_char_progress {s : Stream} {b : List Char} {s1 : Stream}
    (h : read_char s = (.ok b, s1)) (hb : b ≠ []) :
    s1.data = s.data ∧ s1.pos = s.pos + 1 ∧ s.pos < s.data.length := by
  by_cases hl : s.pos < s.data.length
  · have hd : s.data.drop s.pos ≠ [] := by
      simp [List.drop_eq_nil_iff]; omega
    obtain ⟨x, xs, hx⟩ := List.exists_cons_of_ne_nil hd
    rw [read_char_cons hx] at h
    by_cases hx128 : x < 128
    · simp only [decodeOneUtf8, if_pos hx128, Prod.mk.injEq] at h
      obtain ⟨h1, h2⟩ := h
      subst h2
      exact ⟨rfl, rfl, hl⟩
    · simp only [decodeOneUtf8, if_neg hx128, Prod.mk.injEq] at h
      exact absurd h.1 (by simp)
  · rw [read_char_eof s (by omega)] at h
    injection h with h1 h2
    injection h1 with h1
    exact absurd h1.symm hb

/-- `BinaryFile.readline`, loop body: starting from the accumulated string
`acc`, repeatedly read one character; stop on `'\n'` or on the empty
end-of-stream read, returning the accumulator with the terminator appended
(`return s + b`); a decode failure propagates. -/
def readlineAux (s : Stream) (acc : List Char) : (Except PyErr (List Char)) × Stream :=
  match h : read_char s with
  | (.error e, s1) => (.error e, s1)
  | (.ok b, s1) =>
    if hc : b = [Char.ofNat 10] ∨ b = [] then (.ok (acc ++ b), s1)
    else readlineAux s1 (acc ++ b)
termination_by s.data.length - s.pos
decreasing_by
  have hp := read_char_progress h (fun hnil => hc (Or.inr hnil))
  obtain ⟨h1, h2, h3⟩ := hp
  rw [h1, h2]
  omega

/-- `BinaryFile.readline` for the default `encoding='utf-8'`:
`s=''`, then accumulate characters until `'\n'` or `''`. -/
def readline (s : Stream) : (Except PyErr (List Char)) × Stream :=
  readlineAux s []

/-- `BinaryFile.read_int1`: for `N==1`, `unpack('b', f.read(1))[0]`; otherwise
`unpack('{:d}b', f.read(N*1))[:N]` — note that the source never calls
`.format(N)` on this format string, so the brace literal itself reaches
`struct.unpack`. -/
def read_int1 (s : Stream) (N : Nat) : (Except PyErr RRes) × Stream :=
  if N = 1 then
    (scalarRes (unpack (.code 'b') (fread s 1).1), (fread s 1).2)
  else
    (sliceRes N (unpack (.braceLiteral 'b') (fread s (N * 1)).1), (fread s (N * 1)).2)

/-- `BinaryFile.read_int2`: `unpack('h', f.read(2))[0]` or
`unpack('{:d}h'.format(N), f.read(N*2))[:N]`. -/
def read_int2 (s : Stream) (N : Nat) : (Except PyErr RRes) × Stream :=
  if N = 1 then
    (scalarRes (unpack (.code 'h') (fread s 2).1), (fread s 2).2)
  else
    (sliceRes N (unpack (.repCount N 'h') (fread s (N * 2)).1), (fread s (N * 2)).2)

/-- `BinaryFile.read_int4`: `unpack('i', f.read(4))[0]` or
`unpack('{:d}i'.format(N), f.read(N*4))[:N]`. -/
def read_int4 (s : Stream) (N : Nat) : (Except PyErr RRes) × Stream :=
  if N = 1 then
    (scalarRes (unpack (.code 'i') (fread s 4).1), (fread s 4).2)
  else
    (sliceRes N (unpack (.repCount N 'i') (fread s (N * 4)).1), (fread s (N * 4)).2)

/-- `BinaryFile.read_int8`: `unpack('l', f.read(8))[0]` or
`unpack('{:d}l'.format(N), f.read(N*8))[:N]`. -/
def read_int8 (s : Stream) (N : Nat) : (Except PyErr RRes) × Stream :=
  if N = 1 then
    (scalarRes (unpack (.code 'l') (fread s 8).1), (fread s 8).2)
  else
    (sliceRes N (unpack (.repCount N 'l') (fread s (N * 8)).1), (fread s (N * 8)).2)

/-- `BinaryFile.read_int`: `return self.read_int4(N)`. -/
def read_int (s : Stream) (N : Nat) : (Except PyErr RRes) × Stream :=
  read_int4 s N

/-- Result of `dtype(t[0])` on the single-scalar float path. -/
def dtypedScalarRes (d : DType) : Except PyErr (List PyVal) → Except PyErr RRes
  | .ok (v :: _) => .ok (.one (applyDType d v))
  | .ok [] => .error .indexError
  | .error e => .error e

/-- Result of `[dtype(val) for val in t[:N]]` on the multi-scalar float path. -/
def dtypedListRes (d : DType) (N : Nat) : Except PyErr (List PyVal) → Except PyErr RRes
  | .ok vs => .ok (.many ((vs.take N).map (applyDType d)))
  | .error e => .error e

/-- `BinaryFile.read_float`: for `N==1`,
`dtype(unpack('f', f.read(4))[0])`; otherwise
`[dtype(val) for val in unpack('{:d}f'.format(N), f.read(N*4))[:N]]`
(the Python defaults are `N=1`, `dtype=float`; both are passed explicitly
here). -/
def read_float (s : Stream) (N : Nat) (dtype : DType) : (Except PyErr RRes) × Stream :=
  if N = 1 then
    (dtypedScalarRes dtype (unpack (.code 'f') (fread s 4).1), (fread s 4).2)
  else
    (dtypedListRes dtype N (unpack (.repCount N 'f') (fread s (N * 4)).1), (fread s (N * 4)).2)

/-- `BinaryFile.read_double`: `unpack('d', f.read(8))[0]` or
`unpack('{:d}d'.format(N), f.read(N*8))[:N]`. -/
def read_double (s : Stream) (N : Nat) : (Except PyErr RRes) × Stream :=
  if N = 1 then
    (scalarRes (unpack (.code 'd') (fread s 8).1), (fread s 8).2)
  else
    (sliceRes N (unpack (.repCount N 'd') (fread s (N * 8)).1), (fread s (N * 8)).2)

/-- `BinaryFile.read_real4`: `return self.read_float(N, dtype=np.float32)`. -/
def read_real4 (s : Stream) (N : Nat) : (Except PyErr RRes) × Stream :=
  read_float s N .npf32

/-- `BinaryFile.read_real8`: `return self.read_float(N, dtype=np.float64)`. -/
def read_real8 (s : Stream) (N : Nat) : (Except PyErr RRes) × Stream :=
  read_float s N .npf64

/-- Argument of `write_type`: either a bare scalar or an iterable of scalars
(`hasattr(val, '__iter__')` distinguishes them; only integer arguments are
modeled, since no verified claim exercises the float write path). -/
inductive WVal
  | scalar : Int → WVal
  | arr : List Int → WVal
  deriving DecidableEq, Repr

/-- `BinaryFile.write_type`: an iterable value is packed as
`struct.pack('{:d}{:s}'.format(len(val), type), *val)`, a scalar as
`struct.pack(type, val)`; the packed bytes are written to the stream. A pack
failure propagates untranslated and writes nothing. -/
def write_type (s : Stream) (val : WVal) (c : Char) : (Except PyErr Unit) × Stream :=
  match val with
  | .arr vs =>
    match structPack (.repCount vs.length c) vs with
    | .ok bs => (.ok (), fwrite s bs)
    | .error e => (.error e, s)
  | .scalar v =>
    match structPack (.code c) [v] with
    | .ok bs => (.ok (), fwrite s bs)
    | .error e => (.error e, s)

/-- `BinaryFile.write_int1`: `self.write_type(val, 'b')`. -/
def write_int1 (s : Stream) (val : WVal) : (Except PyErr Unit) × Stream :=
  write_type s val 'b'

/-- `BinaryFile.write_int2`: `self.write_type(val, 'h')`. -/
def write_int2 (s : Stream) (val : WVal) : (Except PyErr Unit) × Stream :=
  write_type s val 'h'

/-- `BinaryFile.write_int4`: `self.write_type(val, 'i')`. -/
def write_int4 (s : Stream) (val : WVal) : (Except PyErr Unit) × Stream :=
  write_type s val 'i'

/-- `BinaryFile.write_int8`: `self.write_type(val, 'l')`. -/
def write_int8 (s : Stream) (val : WVal) : (Except PyErr Unit) × Stream :=
  write_type s val 'l'

/-- `BinaryFile.write_int`: `self.write_int4(val)`. -/
def write_int (s : Stream) (val : WVal) : (Except PyErr Unit) × Stream :=
  write_int4 s val

/-- The common shape of `read_int2`, `read_int4`, `read_int8` and
`read_double`, abstracted over the format character `c` and its width `w`:
each of those methods is definitionally `readScalars c w` (proved by `rfl`
below). `read_int1` is not an instance for `N ≠ 1` — its format string is the
unformatted brace literal. -/
def readScalars (c : Char) (w : Nat) (s : Stream) (N : Nat) : (Except PyErr RRes) × Stream :=
  if N = 1 then
    (scalarRes (unpack (.code c) (fread s w).1), (fread s w).2)
  else
    (sliceRes N (unpack (.repCount N c) (fread s (N * w)).1), (fread s (N * w)).2)

theorem read_int2_eq_readScalars (s : Stream) (N : Nat) :
    read_int2 s N = readScalars 'h' 2 s N := rfl

theorem read_int4_eq_readScalars (s : Stream) (N : Nat) :
    read_int4 s N = readScalars 'i' 4 s N := rfl

theorem read_int8_eq_readScalars (s : Stream) (N : Nat) :
    read_int8 s N = readScalars 'l' 8 s N := rfl

theorem read_double_eq_readScalars (s : Stream) (N : Nat) :
    read_double s N = readScalars 'd' 8 s N := rfl

end BinaryFile

/-- Concatenated little-endian encodings of a run of signed integers of
width `w` (the byte run a successful `packSeq` produces). -/
def packBytes (w : Nat) : List Int → List Nat
  | [] => []
  | v :: vs => leBytes w (toUnsigned w v) ++ packBytes w vs

/-- The prefix of a byte list up to and including its first newline byte
(`10`), or the whole list when it has no newline: the bytes `readline`
consumes and returns. -/
def lineBytes : List Nat → List Nat
  | [] => []
  | b :: bs => if b = 10 then [10] else b :: lineBytes bs

/-- The open/closed state of the file handle `self.f`, for the resource
lifecycle of the `with` statement. -/
structure FileHandle where
  isClosed : Bool
  deriving DecidableEq, Repr

/-- Truthiness of the value returned by `__exit__`, the only part of it the
`with` statement inspects. The source ends with `return self`: a `BinaryFile`
instance defines neither `__bool__` nor `__len__`, so it is truthy. The
commented-out alternative `return False` would be falsy, as would returning
nothing (`None`). -/
inductive ExitRet
  | selfObj
  | falseObj
  | noneObj
  deriving DecidableEq, Repr

/-- Python truthiness of an `__exit__` return value. -/
def truthy : ExitRet → Bool
  | .selfObj => true
  | .falseObj => false
  | .noneObj => false

/-- The exception triple `(exc_type, exc_value, traceback)` passed to
`__exit__`, reduced to the exception kind (the only part the claims need);
`none` models the all-`None` triple of a normal exit. -/
structure ExcInfo where
  kind : PyErr
  deriving DecidableEq, Repr

/-- `BinaryFile.__exit__`: closes `self.f`, prints the exception triple if one
occurred, and ends with `return self`. Result: the handle after closing,
whether the diagnostic print ran, and the returned value. -/
def exitDunder (h : FileHandle) (exc : Option ExcInfo) : FileHandle × Bool × ExitRet :=
  (⟨true⟩, exc.isSome, .selfObj)

/-- The Python `with`-statement protocol, specialized to a `BinaryFile` scope
whose body either completed normally (`bodyExc = none`) or raised
`bodyExc = some e`: `__exit__` runs in both cases, and a raised exception
propagates to the caller if and only if the value `__exit__` returned is
falsy. Result: the handle after exit and the exception that propagates, if
any. -/
def withStatement (h : FileHandle) (bodyExc : Option ExcInfo) : FileHandle × Option ExcInfo :=
  let r := exitDunder h bodyExc
  match bodyExc with
  | none => (r.1, none)
  | some e => if truthy r.2.2 then (r.1, none) else (r.1, some e)

/-- C1 counterexample: run a `with` scope whose body raised an `IOError`. The
handle is closed on exit, but — because `__exit__` ends in `return self`,
which is truthy — the exception does not continue to propagate to the caller,
contradicting the claim that it is never suppressed. -/
theorem C1_counterexample :
    (withStatement ⟨false⟩ (some ⟨PyErr.ioError⟩)).1.isClosed = true ∧
    (withStatement ⟨false⟩ (some ⟨PyErr.ioError⟩)).2 ≠ some ⟨PyErr.ioError⟩ := by
  decide

/-- C1 (amended): on scope exit `__exit__` always closes the stream handle,
but an exception raised inside the scope is then swallowed: since `__exit__`
returns `self`, a truthy value, the `with` statement suppresses the exception,
and nothing propagates to the caller. -/
theorem C1_exit_closes_and_suppresses (h : FileHandle) (exc : Option ExcInfo) :
    (withStatement h exc).1.isClosed = true ∧ (withStatement h exc).2 = none := by
  cases exc <;> simp [withStatement, exitDunder, truthy]

/-- C2 (code bug): `read_int1` with count `N = 2` on a stream holding the two
bytes `[5, 250]` reads both bytes (the position advances to 2) but then raises
`IOError` instead of returning the decoded pair `(5, -6)`: the source passes
the literal string `'{:d}b'` — `.format(N)` is never applied, unlike every
other width — and `struct.unpack` rejects its brace as a bad format character,
which `BinaryFile.unpack` converts to `IOError`. -/
theorem C2_read_int1_multi_always_fails :
    BinaryFile.read_int1 ⟨[5, 250], 0⟩ 2 = (.error .ioError, ⟨[5, 250], 2⟩) :=
  rfl

theorem leBytes_length (w u : Nat) : (leBytes w u).length = w := by
  induction w generalizing u with
  | zero => rfl
  | succ w ih => simp [leBytes, ih]

theorem leNat_leBytes (w u : Nat) : leNat (leBytes w u) = u % 256 ^ w := by
  induction w generalizing u with
  | zero => simp [leBytes, leNat, Nat.mod_one]
  | succ w ih =>
    rw [pow_succ, mul_comm (256 ^ w) 256, Nat.mod_mul]
    simp [leBytes, leNat, ih]

theorem pow256_eq (w : Nat) : (256 : ℕ) ^ w = 2 ^ (8 * w) := by
  rw [pow_mul]
  norm_num

theorem toUnsigned_lt (w : Nat) (v : Int) : toUnsigned w v < 2 ^ (8 * w) := by
  have hnn := Int.emod_nonneg v (by positivity : (2 : Int) ^ (8 * w) ≠ 0)
  have hlt := Int.emod_lt_of_pos v (by positivity : (0 : Int) < 2 ^ (8 * w))
  unfold toUnsigned
  zify
  rw [Int.toNat_of_nonneg hnn]
  exact hlt

theorem toSigned_toUnsigned (w : Nat) (v : Int) (hw : 1 ≤ w)
    (h1 : -((2 : Int) ^ (8 * w - 1)) ≤ v) (h2 : v < (2 : Int) ^ (8 * w - 1)) :
    toSigned w (toUnsigned w v) = v := by
  have hM : (2 : Int) ^ (8 * w) = 2 * 2 ^ (8 * w - 1) := by
    rw [← pow_succ']
    congr 1
    omega
  have hKN : ((2 ^ (8 * w - 1) : ℕ) : Int) = (2 : Int) ^ (8 * w - 1) := by
    push_cast; ring
  have hKpos : (0 : Int) < 2 ^ (8 * w - 1) := by positivity
  by_cases hv : 0 ≤ v
  · have hmod : v % (2 : Int) ^ (8 * w) = v := Int.emod_eq_of_lt hv (by omega)
    have hu : toUnsigned w v = v.toNat := by rw [toUnsigned, hmod]
    rw [toSigned, hu, if_pos]
    · exact Int.toNat_of_nonneg hv
    · have : (v.toNat : Int) < ((2 ^ (8 * w - 1) : ℕ) : Int) := by
        rw [Int.toNat_of_nonneg hv, hKN]; exact h2
      exact_mod_cast this
  · push_neg at hv
    have hmod : v % (2 : Int) ^ (8 * w) = v + 2 ^ (8 * w) := by
      have : v % (2 : Int) ^ (8 * w) = (v + 2 ^ (8 * w) * 1) % 2 ^ (8 * w) := by
        rw [Int.add_mul_emod_self_left]
      rw [this, mul_one, Int.emod_eq_of_lt (by omega) (by omega)]
    have hu : toUnsigned w v = (v + 2 ^ (8 * w)).toNat := by rw [toUnsigned, hmod]
    have hnn : (0 : Int) ≤ v + 2 ^ (8 * w) := by omega
    rw [toSigned, hu, if_neg]
    · rw [Int.toNat_of_nonneg hnn]; ring
    · intro hlt
      have : ((v + 2 ^ (8 * w)).toNat : Int) < ((2 ^ (8 * w - 1) : ℕ) : Int) := by
        exact_mod_cast hlt
      rw [Int.toNat_of_nonneg hnn, hKN] at this
      omega

/-- Decoding the packed bytes of an in-range signed integer recovers it. -/
theorem decode_encode_int (w : Nat) (v : Int) (hw : 1 ≤ w)
    (h1 : -((2 : Int) ^ (8 * w - 1)) ≤ v) (h2 : v < (2 : Int) ^ (8 * w - 1)) :
    toSigned w (leNat (leBytes w (toUnsigned w v))) = v := by
  rw [leNat_leBytes, pow256_eq, Nat.mod_eq_of_lt (toUnsigned_lt w v)]
  exact toSigned_toUnsigned w v hw h1 h2

theorem packBytes_length (w : Nat) (vs : List Int) :
    (packBytes w vs).length = w * vs.length := by
  induction vs with
  | nil => simp [packBytes]
  | cons v vs ih =>
    simp [packBytes, ih, leBytes_length]
    ring

theorem packSeq_ok (w : Nat) (vs : List Int)
    (h : ∀ v ∈ vs, -((2 : Int) ^ (8 * w - 1)) ≤ v ∧ v < (2 : Int) ^ (8 * w - 1)) :
    packSeq w vs = .ok (packBytes w vs) := by
  induction vs with
  | nil => rfl
  | cons v vs ih =>
    have hv := h v (List.mem_cons_self v vs)
    have hrec := ih (fun x hx => h x (List.mem_cons_of_mem v hx))
    rw [packSeq, packInt, if_pos hv, hrec]
    rfl

theorem decodeVal_int {c : Char} (hf : c ≠ 'f') (hd : c ≠ 'd') (w : Nat) (chunk : List Nat) :
    decodeVal c w chunk = .intv (toSigned w (leNat chunk)) := by
  rw [decodeVal, if_neg hf, if_neg hd]

theorem decodeSeq_length (c : Char) (w : Nat) (n : Nat) (buf : List Nat) :
    (decodeSeq c w n buf).length = n := by
  induction n generalizing buf with
  | zero => rfl
  | succ n ih => simp [decodeSeq, ih]

/-- Decoding a packed run of in-range signed integers (followed by any
trailing bytes) recovers the run. -/
theorem decodeSeq_packBytes {c : Char} (hf : c ≠ 'f') (hd : c ≠ 'd')
    (w : Nat) (hw : 1 ≤ w) (vs : List Int) (rest : List Nat)
    (h : ∀ v ∈ vs, -((2 : Int) ^ (8 * w - 1)) ≤ v ∧ v < (2 : Int) ^ (8 * w - 1)) :
    decodeSeq c w vs.length (packBytes w vs ++ rest) = vs.map PyVal.intv := by
  induction vs generalizing rest with
  | nil => rfl
  | cons v vs ih =>
    have hv := h v (List.mem_cons_self v vs)
    have henc : (leBytes w (toUnsigned w v)).length = w := leBytes_length ..
    rw [List.length_cons, decodeSeq, packBytes, List.append_assoc,
      List.take_left' henc, List.drop_left' henc,
      decodeVal_int hf hd, decode_encode_int w v hw hv.1 hv.2,
      ih rest (fun x hx => h x (List.mem_cons_of_mem v hx))]
    rfl

theorem write_type_arr_ok (c : Char) (w : Nat) (hiw : intWidthOfCode c = some w)
    (s : Stream) (vs : List Int)
    (h : ∀ v ∈ vs, -((2 : Int) ^ (8 * w - 1)) ≤ v ∧ v < (2 : Int) ^ (8 * w - 1)) :
    BinaryFile.write_type s (.arr vs) c = (.ok (), fwrite s (packBytes w vs)) := by
  simp [BinaryFile.write_type, structPack, hiw, packSeq_ok w vs h]

theorem write_type_scalar_ok (c : Char) (w : Nat) (hiw : intWidthOfCode c = some w)
    (s : Stream) (v : Int)
    (h1 : -((2 : Int) ^ (8 * w - 1)) ≤ v) (h2 : v < (2 : Int) ^ (8 * w - 1)) :
    BinaryFile.write_type s (.scalar v) c =
      (.ok (), fwrite s (leBytes w (toUnsigned w v))) := by
  have hp : packSeq w [v] = .ok (packBytes w [v]) :=
    packSeq_ok w [v] (by simpa using ⟨h1, h2⟩)
  simp [BinaryFile.write_type, structPack, hiw, hp, packBytes]

theorem fread_after_fwrite (s : Stream) (bs : List Nat) (hpos : s.pos ≤ s.data.length) :
    fread ⟨(fwrite s bs).data, s.pos⟩ bs.length =
      (bs, ⟨(fwrite s bs).data, s.pos + bs.length⟩) := by
  have htl : (s.data.take s.pos).length = s.pos := by
    rw [List.length_take]
    omega
  have hdrop : (fwrite s bs).data.drop s.pos = bs ++ s.data.drop (s.pos + bs.length) := by
    rw [fwrite, List.append_assoc, List.drop_left' htl]
  rw [fread]
  simp only [hdrop, List.take_left' rfl]

/-- Round trip through `write_type` and the common multi-scalar read shape:
writing an array of `N ≠ 1` in-range integers of width `w` and reading `N`
scalars of the same format from the original position yields the array back
and leaves the position `N * w` bytes further. -/
theorem readScalars_after_write_arr (c : Char) (w : Nat) (hw : 1 ≤ w)
    (hsz : sizeOfCode c = some w) (hiw : intWidthOfCode c = some w)
    (hf : c ≠ 'f') (hd : c ≠ 'd') (s : Stream) (hpos : s.pos ≤ s.data.length)
    (vs : List Int) (hN : vs.length ≠ 1)
    (h : ∀ v ∈ vs, -((2 : Int) ^ (8 * w - 1)) ≤ v ∧ v < (2 : Int) ^ (8 * w - 1)) :
    ∃ s1 : Stream, BinaryFile.write_type s (.arr vs) c = (.ok (), s1) ∧
      BinaryFile.readScalars c w ⟨s1.data, s.pos⟩ vs.length =
        (.ok (.many (vs.map PyVal.intv)), ⟨s1.data, s.pos + vs.length * w⟩) := by
  refine ⟨fwrite s (packBytes w vs), write_type_arr_ok c w hiw s vs h, ?_⟩
  have hlen : (packBytes w vs).length = vs.length * w := by
    rw [packBytes_length, Nat.mul_comm]
  have hread := fread_after_fwrite s (packBytes w vs) hpos
  rw [hlen] at hread
  have hun : BinaryFile.unpack (.repCount vs.length c) (packBytes w vs) =
      .ok (vs.map PyVal.intv) := by
    have hds : decodeSeq c w vs.length (packBytes w vs) = vs.map PyVal.intv := by
      have := decodeSeq_packBytes hf hd w hw vs [] h
      rwa [List.append_nil] at this
    simp [BinaryFile.unpack, structUnpack, unpackCount, hsz, hlen, Nat.mul_comm w vs.length, hds]
  rw [BinaryFile.readScalars, if_neg hN, hread]
  simp only [hun, sliceRes]
  rw [List.take_of_length_le (by rw [List.length_map])]

/-- Round trip through `write_type` and the common single-scalar read shape:
writing one in-range integer of width `w` and reading one scalar of the same
format from the original position yields the bare value back and leaves the
position `w` bytes further. -/
theorem readScalars_after_write_scalar (c : Char) (w : Nat) (hw : 1 ≤ w)
    (hsz : sizeOfCode c = some w) (hiw : intWidthOfCode c = some w)
    (hf : c ≠ 'f') (hd : c ≠ 'd') (s : Stream) (hpos : s.pos ≤ s.data.length)
    (v : Int)
    (h1 : -((2 : Int) ^ (8 * w - 1)) ≤ v) (h2 : v < (2 : Int) ^ (8 * w - 1)) :
    ∃ s1 : Stream, BinaryFile.write_type s (.scalar v) c = (.ok (), s1) ∧
      BinaryFile.readScalars c w ⟨s1.data, s.pos⟩ 1 =
        (.ok (.one (.intv v)), ⟨s1.data, s.pos + w⟩) := by
  refine ⟨fwrite s (leBytes w (toUnsigned w v)), write_type_scalar_ok c w hiw s v h1 h2, ?_⟩
  have hlen : (leBytes w (toUnsigned w v)).length = w := leBytes_length ..
  have hread := fread_after_fwrite s (leBytes w (toUnsigned w v)) hpos
  rw [hlen] at hread
  have hun : BinaryFile.unpack (.code c) (leBytes w (toUnsigned w v)) =
      .ok [.intv v] := by
    have hds : decodeSeq c w 1 (leBytes w (toUnsigned w v)) = [.intv v] := by
      rw [decodeSeq, decodeSeq, List.take_of_length_le (le_of_eq hlen),
        decodeVal_int hf hd, decode_encode_int w v hw h1 h2]
    simp [BinaryFile.unpack, structUnpack, unpackCount, hsz, hlen, hds]
  rw [BinaryFile.readScalars, if_pos rfl, hread]
  simp only [hun, scalarRes]

theorem read_int1_multi_ioError (s : Stream) (N : Nat) (hN : N ≠ 1) :
    (BinaryFile.read_int1 s N).1 = .error .ioError := by
  simp [BinaryFile.read_int1, hN, BinaryFile.unpack, structUnpack, sliceRes]

theorem read_int1_one_eq_readScalars (s : Stream) :
    BinaryFile.read_int1 s 1 = BinaryFile.readScalars 'b' 1 s 1 := rfl

/-- C3 counterexample: the round-trip law fails for width 1 with `N = 2`.
Writing the two in-range bytes `[3, 4]` with `write_int1` succeeds and
produces the expected two bytes, but reading them back with `read_int1(2)`
raises `IOError` instead of returning `(3, 4)`, because `read_int1` passes
the unformatted string `'{:d}b'` to `struct.unpack`. -/
theorem C3_counterexample :
    BinaryFile.write_int1 ⟨[], 0⟩ (.arr [3, 4]) = (.ok (), ⟨[3, 4], 2⟩) ∧
    BinaryFile.read_int1 ⟨[3, 4], 0⟩ 2 = (.error .ioError, ⟨[3, 4], 2⟩) :=
  ⟨rfl, rfl⟩

/-- C3 (amended): the write-then-read round-trip law holds for widths 2, 4
and 8 — for a bare in-range scalar (`N = 1`) and for an array-like of any
length `N ≠ 1` — and for width 1 it holds for a bare scalar; but for width 1
with `N > 1` the write succeeds while the read-back always fails with
`IOError` (the malformed `'{:d}b'` format), so no round trip exists there. -/
theorem C3_roundtrip_amended (s : Stream) (hpos : s.pos ≤ s.data.length) :
    (∀ v : Int, -(2 ^ 7) ≤ v → v < 2 ^ 7 →
      ∃ s1, BinaryFile.write_int1 s (.scalar v) = (.ok (), s1) ∧
        BinaryFile.read_int1 ⟨s1.data, s.pos⟩ 1 =
          (.ok (.one (.intv v)), ⟨s1.data, s.pos + 1⟩)) ∧
    (∀ v : Int, -(2 ^ 15) ≤ v → v < 2 ^ 15 →
      ∃ s1, BinaryFile.write_int2 s (.scalar v) = (.ok (), s1) ∧
        BinaryFile.read_int2 ⟨s1.data, s.pos⟩ 1 =
          (.ok (.one (.intv v)), ⟨s1.data, s.pos + 2⟩)) ∧
    (∀ vs : List Int, vs.length ≠ 1 → (∀ v ∈ vs, -(2 ^ 15) ≤ v ∧ v < 2 ^ 15) →
      ∃ s1, BinaryFile.write_int2 s (.arr vs) = (.ok (), s1) ∧
        BinaryFile.read_int2 ⟨s1.data, s.pos⟩ vs.length =
          (.ok (.many (vs.map PyVal.intv)), ⟨s1.data, s.pos + vs.length * 2⟩)) ∧
    (∀ v : Int, -(2 ^ 31) ≤ v → v < 2 ^ 31 →
      ∃ s1, BinaryFile.write_int4 s (.scalar v) = (.ok (), s1) ∧
        BinaryFile.read_int4 ⟨s1.data, s.pos⟩ 1 =
          (.ok (.one (.intv v)), ⟨s1.data, s.pos + 4⟩)) ∧
    (∀ vs : List Int, vs.length ≠ 1 → (∀ v ∈ vs, -(2 ^ 31) ≤ v ∧ v < 2 ^ 31) →
      ∃ s1, BinaryFile.write_int4 s (.arr vs) = (.ok (), s1) ∧
        BinaryFile.read_int4 ⟨s1.data, s.pos⟩ vs.length =
          (.ok (.many (vs.map PyVal.intv)), ⟨s1.data, s.pos + vs.length * 4⟩)) ∧
    (∀ v : Int, -(2 ^ 63) ≤ v → v < 2 ^ 63 →
      ∃ s1, BinaryFile.write_int8 s (.scalar v) = (.ok (), s1) ∧
        BinaryFile.read_int8 ⟨s1.data, s.pos⟩ 1 =
          (.ok (.one (.intv v)), ⟨s1.data, s.pos + 8⟩)) ∧
    (∀ vs : List Int, vs.length ≠ 1 → (∀ v ∈ vs, -(2 ^ 63) ≤ v ∧ v < 2 ^ 63) →
      ∃ s1, BinaryFile.write_int8 s (.arr vs) = (.ok (), s1) ∧
        BinaryFile.read_int8 ⟨s1.data, s.pos⟩ vs.length =
          (.ok (.many (vs.map PyVal.intv)), ⟨s1.data, s.pos + vs.length * 8⟩)) ∧
    (∀ vs : List Int, vs.length ≠ 1 → (∀ v ∈ vs, -(2 ^ 7) ≤ v ∧ v < 2 ^ 7) →
      ∃ s1, BinaryFile.write_int1 s (.arr vs) = (.ok (), s1) ∧
        (BinaryFile.read_int1 ⟨s1.data, s.pos⟩ vs.length).1 = .error .ioError) := by
  refine ⟨?_, ?_, ?_, ?_, ?_, ?_, ?_, ?_⟩
  · intro v h1 h2
    have h := readScalars_after_write_scalar 'b' 1 (by norm_num) rfl rfl
      (by decide) (by decide) s hpos v (by norm_num; exact h1) (by norm_num; exact h2)
    exact h
  · intro v h1 h2
    have h := readScalars_after_write_scalar 'h' 2 (by norm_num) rfl rfl
      (by decide) (by decide) s hpos v (by norm_num; exact h1) (by norm_num; exact h2)
    exact h
  · intro vs hN hr
    have h := readScalars_after_write_arr 'h' 2 (by norm_num) rfl rfl
      (by decide) (by decide) s hpos vs hN (by intro v hv; have := hr v hv; constructor <;>
        [skip; skip] <;> norm_num <;> omega)
    exact h
  · intro v h1 h2
    have h := readScalars_after_write_scalar 'i' 4 (by norm_num) rfl rfl
      (by decide) (by decide) s hpos v (by norm_num; exact h1) (by norm_num; exact h2)
    exact h
  · intro vs hN hr
    have h := readScalars_after_write_arr 'i' 4 (by norm_num) rfl rfl
      (by decide) (by decide) s hpos vs hN (by intro v hv; have := hr v hv; constructor <;>
        [skip; skip] <;> norm_num <;> omega)
    exact h
  · intro v h1 h2
    have h := readScalars_after_write_scalar 'l' 8 (by norm_num) rfl rfl
      (by decide) (by decide) s hpos v (by norm_num; exact h1) (by norm_num; exact h2)
    exact h
  · intro vs hN hr
    have h := readScalars_after_write_arr 'l' 8 (by norm_num) rfl rfl
      (by decide) (by decide) s hpos vs hN (by intro v hv; have := hr v hv; constructor <;>
        [skip; skip] <;> norm_num <;> omega)
    exact h
  · intro vs hN hr
    refine ⟨fwrite s (packBytes 1 vs), ?_, read_int1_multi_ioError _ _ hN⟩
    exact write_type_arr_ok 'b' 1 rfl s vs (by
      intro v hv
      have := hr v hv
      constructor <;> norm_num <;> omega)

/-- C3 witness: the amended round-trip theorem applied to the concrete width-4
array `[1, -2]` written at position 0 of an empty stream. -/
theorem C3_roundtrip_amended_witness :
    ∃ s1, BinaryFile.write_int4 ⟨[], 0⟩ (.arr [1, -2]) = (.ok (), s1) ∧
      BinaryFile.read_int4 ⟨s1.data, 0⟩ 2 =
        (.ok (.many ([1, -2].map PyVal.intv)), ⟨s1.data, 0 + 2 * 4⟩) :=
  (C3_roundtrip_amended ⟨[], 0⟩ (by decide)).2.2.2.2.1 [1, -2] (by decide) (by decide)

theorem structUnpack_error {fmt : StructFmt} {buf : List Nat} {e : PyErr}
    (h : structUnpack fmt buf = .error e) : e = .structError := by
  cases fmt with
  | code c =>
    simp only [structUnpack, unpackCount] at h
    split at h
    · injection h with h; exact h.symm
    · split at h
      · simp at h
      · injection h with h; exact h.symm
  | repCount n c =>
    simp only [structUnpack, unpackCount] at h
    split at h
    · injection h with h; exact h.symm
    · split at h
      · simp at h
      · injection h with h; exact h.symm
  | braceLiteral c =>
    simp only [structUnpack] at h
    injection h with h; exact h.symm

theorem unpack_never_structError (fmt : StructFmt) (buf : List Nat) :
    BinaryFile.unpack fmt buf ≠ .error .structError := by
  rcases hs : structUnpack fmt buf with e | vs
  · have he := structUnpack_error hs
    subst he
    simp [BinaryFile.unpack, hs]
  · simp [BinaryFile.unpack, hs]

theorem unpack_repCount_mismatch (n : Nat) (c : Char) (w : Nat)
    (hsz : sizeOfCode c = some w) (buf : List Nat) (hbuf : buf.length ≠ n * w) :
    BinaryFile.unpack (.repCount n c) buf = .error .ioError := by
  simp [BinaryFile.unpack, structUnpack, unpackCount, hsz, hbuf]

theorem unpack_code_mismatch (c : Char) (w : Nat)
    (hsz : sizeOfCode c = some w) (buf : List Nat) (hbuf : buf.length ≠ w) :
    BinaryFile.unpack (.code c) buf = .error .ioError := by
  simp [BinaryFile.unpack, structUnpack, unpackCount, hsz, hbuf]

theorem fread_short (s : Stream) (n : Nat) (hpos : s.pos ≤ s.data.length)
    (hshort : s.data.length - s.pos < n) :
    (fread s n).1.length = s.data.length - s.pos ∧
    (fread s n).2 = ⟨s.data, s.pos + (s.data.length - s.pos)⟩ := by
  have hlen : ((s.data.drop s.pos).take n).length = s.data.length - s.pos := by
    rw [List.length_take, List.length_drop]
    omega
  refine ⟨hlen, ?_⟩
  rw [fread]
  simp [hlen]

/-- A short read through the common read shape: when fewer than `N * w` bytes
remain, the bytes that do remain are consumed and the result is `IOError`. -/
theorem readScalars_short (c : Char) (w : Nat) (hsz : sizeOfCode c = some w)
    (s : Stream) (N : Nat) (hpos : s.pos ≤ s.data.length)
    (hshort : s.data.length - s.pos < N * w) :
    BinaryFile.readScalars c w s N =
      (.error .ioError, ⟨s.data, s.pos + (s.data.length - s.pos)⟩) := by
  rw [BinaryFile.readScalars]
  by_cases h1 : N = 1
  · subst h1
    rw [if_pos rfl]
    have hf := fread_short s w hpos (by omega)
    rw [hf.2, unpack_code_mismatch c w hsz _ (by rw [hf.1]; omega)]
    rfl
  · rw [if_neg h1]
    have hf := fread_short s (N * w) hpos (by omega)
    rw [hf.2, unpack_repCount_mismatch N c w hsz _ (by rw [hf.1]; omega)]
    rfl

/-- `read_int1` for `N ≠ 1` on a short stream: the remaining bytes are
consumed and the result is `IOError` (here for any stream, short or not, the
result is `IOError`; this lemma fixes the final position for the short case). -/
theorem read_int1_multi_short (s : Stream) (N : Nat) (hN : N ≠ 1)
    (hpos : s.pos ≤ s.data.length) (hshort : s.data.length - s.pos < N * 1) :
    BinaryFile.read_int1 s N =
      (.error .ioError, ⟨s.data, s.pos + (s.data.length - s.pos)⟩) := by
  rw [BinaryFile.read_int1, if_neg hN]
  have hf := fread_short s (N * 1) hpos (by omega)
  rw [hf.2]
  simp [BinaryFile.unpack, structUnpack, sliceRes]

/-- A short `read_float` (any dtype): the remaining bytes are consumed and the
result is `IOError`. -/
theorem read_float_short (d : DType) (s : Stream) (N : Nat)
    (hpos : s.pos ≤ s.data.length) (hshort : s.data.length - s.pos < N * 4) :
    BinaryFile.read_float s N d =
      (.error .ioError, ⟨s.data, s.pos + (s.data.length - s.pos)⟩) := by
  rw [BinaryFile.read_float]
  by_cases h1 : N = 1
  · subst h1
    rw [if_pos rfl]
    have hf := fread_short s 4 hpos (by omega)
    rw [hf.2, unpack_code_mismatch 'f' 4 rfl _ (by rw [hf.1]; omega)]
    rfl
  · rw [if_neg h1]
    have hf := fread_short s (N * 4) hpos (by omega)
    rw [hf.2, unpack_repCount_mismatch N 'f' 4 rfl _ (by rw [hf.1]; omega)]
    rfl

/-- C4: short reads fail with the single generic error kind. The `unpack`
primitive never lets `struct.error` escape; it converts every buffer/format
length mismatch (for a bare code or a counted format) to `IOError`; and every
typed scalar read on a stream with fewer than `width × N` bytes remaining
fails with `IOError`. -/
theorem C4_unified_error_kind :
    (∀ (fmt : StructFmt) (buf : List Nat),
      BinaryFile.unpack fmt buf ≠ .error .structError) ∧
    (∀ (c : Char) (w : Nat) (buf : List Nat), sizeOfCode c = some w →
      buf.length ≠ w → BinaryFile.unpack (.code c) buf = .error .ioError) ∧
    (∀ (n : Nat) (c : Char) (w : Nat) (buf : List Nat), sizeOfCode c = some w →
      buf.length ≠ n * w → BinaryFile.unpack (.repCount n c) buf = .error .ioError) ∧
    (∀ (s : Stream) (N : Nat), s.pos ≤ s.data.length → s.data.length - s.pos < N * 1 →
      (BinaryFile.read_int1 s N).1 = .error .ioError) ∧
    (∀ (s : Stream) (N : Nat), s.pos ≤ s.data.length → s.data.length - s.pos < N * 2 →
      (BinaryFile.read_int2 s N).1 = .error .ioError) ∧
    (∀ (s : Stream) (N : Nat), s.pos ≤ s.data.length → s.data.length - s.pos < N * 4 →
      (BinaryFile.read_int4 s N).1 = .error .ioError) ∧
    (∀ (s : Stream) (N : Nat), s.pos ≤ s.data.length → s.data.length - s.pos < N * 8 →
      (BinaryFile.read_int8 s N).1 = .error .ioError) ∧
    (∀ (s : Stream) (N : Nat), s.pos ≤ s.data.length → s.data.length - s.pos < N * 4 →
      (BinaryFile.read_int s N).1 = .error .ioError) ∧
    (∀ (d : DType) (s : Stream) (N : Nat), s.pos ≤ s.data.length →
      s.data.length - s.pos < N * 4 → (BinaryFile.read_float s N d).1 = .error .ioError) ∧
    (∀ (s : Stream) (N : Nat), s.pos ≤ s.data.length → s.data.length - s.pos < N * 8 →
      (BinaryFile.read_double s N).1 = .error .ioError) ∧
    (∀ (s : Stream) (N : Nat), s.pos ≤ s.data.length → s.data.length - s.pos < N * 4 →
      (BinaryFile.read_real4 s N).1 = .error .ioError) ∧
    (∀ (s : Stream) (N : Nat), s.pos ≤ s.data.length → s.data.length - s.pos < N * 4 →
      (BinaryFile.read_real8 s N).1 = .error .ioError) := by
  refine ⟨unpack_never_structError,
    fun c w buf hsz hbuf => unpack_code_mismatch c w hsz buf hbuf,
    fun n c w buf hsz hbuf => unpack_repCount_mismatch n c w hsz buf hbuf,
    ?_, ?_, ?_, ?_, ?_, ?_, ?_, ?_, ?_⟩
  · intro s N hpos hshort
    by_cases hN : N = 1
    · subst hN
      exact congrArg Prod.fst (readScalars_short 'b' 1 rfl s 1 hpos hshort)
    · exact read_int1_multi_ioError s N hN
  · intro s N hpos hshort
    exact congrArg Prod.fst (readScalars_short 'h' 2 rfl s N hpos hshort)
  · intro s N hpos hshort
    exact congrArg Prod.fst (readScalars_short 'i' 4 rfl s N hpos hshort)
  · intro s N hpos hshort
    exact congrArg Prod.fst (readScalars_short 'l' 8 rfl s N hpos hshort)
  · intro s N hpos hshort
    exact congrArg Prod.fst (readScalars_short 'i' 4 rfl s N hpos hshort)
  · intro d s N hpos hshort
    exact congrArg Prod.fst (read_float_short d s N hpos hshort)
  · intro s N hpos hshort
    exact congrArg Prod.fst (readScalars_short 'd' 8 rfl s N hpos hshort)
  · intro s N hpos hshort
    exact congrArg Prod.fst (read_float_short .npf32 s N hpos hshort)
  · intro s N hpos hshort
    exact congrArg Prod.fst (read_float_short .npf64 s N hpos hshort)

/-- C4 witness: reading a 4-byte integer from a stream with only the two
bytes `[1, 2]` left fails with `IOError`, and a direct 2-byte buffer handed to
`unpack` with the 4-byte format is translated the same way. -/
theorem C4_unified_error_kind_witness :
    ((⟨[1, 2], 0⟩ : Stream).pos ≤ (⟨[1, 2], 0⟩ : Stream).data.length ∧
      (⟨[1, 2], 0⟩ : Stream).data.length - (⟨[1, 2], 0⟩ : Stream).pos < 1 * 4 ∧
      (BinaryFile.read_int4 ⟨[1, 2], 0⟩ 1).1 = .error .ioError) ∧
    (sizeOfCode 'i' = some 4 ∧ ([1, 2] : List Nat).length ≠ 4 ∧
      BinaryFile.unpack (.code 'i') [1, 2] = .error .ioError) :=
  ⟨⟨by decide, by decide,
      C4_unified_error_kind.2.2.2.2.2.1 ⟨[1, 2], 0⟩ 1 (by decide) (by decide)⟩,
    ⟨rfl, by decide,
      C4_unified_error_kind.2.1 'i' 4 [1, 2] rfl (by decide)⟩⟩

/-- C10: typed reads are not atomic on failure. For every typed read of width
`w` and count `N` on a stream with only `k < w × N` bytes remaining, the
operation fails with `IOError` and the position has nonetheless advanced by
exactly those `k` consumed bytes (to end-of-stream); it is not restored. -/
theorem C10_reads_not_atomic_on_failure :
    (∀ (s : Stream) (N : Nat), s.pos ≤ s.data.length → s.data.length - s.pos < N * 1 →
      BinaryFile.read_int1 s N =
        (.error .ioError, ⟨s.data, s.pos + (s.data.length - s.pos)⟩)) ∧
    (∀ (s : Stream) (N : Nat), s.pos ≤ s.data.length → s.data.length - s.pos < N * 2 →
      BinaryFile.read_int2 s N =
        (.error .ioError, ⟨s.data, s.pos + (s.data.length - s.pos)⟩)) ∧
    (∀ (s : Stream) (N : Nat), s.pos ≤ s.data.length → s.data.length - s.pos < N * 4 →
      BinaryFile.read_int4 s N =
        (.error .ioError, ⟨s.data, s.pos + (s.data.length - s.pos)⟩)) ∧
    (∀ (s : Stream) (N : Nat), s.pos ≤ s.data.length → s.data.length - s.pos < N * 8 →
      BinaryFile.read_int8 s N =
        (.error .ioError, ⟨s.data, s.pos + (s.data.length - s.pos)⟩)) ∧
    (∀ (s : Stream) (N : Nat), s.pos ≤ s.data.length → s.data.length - s.pos < N * 4 →
      BinaryFile.read_int s N =
        (.error .ioError, ⟨s.data, s.pos + (s.data.length - s.pos)⟩)) ∧
    (∀ (d : DType) (s : Stream) (N : Nat), s.pos ≤ s.data.length →
      s.data.length - s.pos < N * 4 →
      BinaryFile.read_float s N d =
        (.error .ioError, ⟨s.data, s.pos + (s.data.length - s.pos)⟩)) ∧
    (∀ (s : Stream) (N : Nat), s.pos ≤ s.data.length → s.data.length - s.pos < N * 8 →
      BinaryFile.read_double s N =
        (.error .ioError, ⟨s.data, s.pos + (s.data.length - s.pos)⟩)) ∧
    (∀ (s : Stream) (N : Nat), s.pos ≤ s.data.length → s.data.length - s.pos < N * 4 →
      BinaryFile.read_real4 s N =
        (.error .ioError, ⟨s.data, s.pos + (s.data.length - s.pos)⟩)) ∧
    (∀ (s : Stream) (N : Nat), s.pos ≤ s.data.length → s.data.length - s.pos < N * 4 →
      BinaryFile.read_real8 s N =
        (.error .ioError, ⟨s.data, s.pos + (s.data.length - s.pos)⟩)) := by
  refine ⟨?_, ?_, ?_, ?_, ?_, ?_, ?_, ?_, ?_⟩
  · intro s N hpos hshort
    by_cases hN : N = 1
    · subst hN
      exact readScalars_short 'b' 1 rfl s 1 hpos hshort
    · exact read_int1_multi_short s N hN hpos hshort
  · intro s N hpos hshort
    exact readScalars_short 'h' 2 rfl s N hpos hshort
  · intro s N hpos hshort
    exact readScalars_short 'i' 4 rfl s N hpos hshort
  · intro s N hpos hshort
    exact readScalars_short 'l' 8 rfl s N hpos hshort
  · intro s N hpos hshort
    exact readScalars_short 'i' 4 rfl s N hpos hshort
  · intro d s N hpos hshort
    exact read_float_short d s N hpos hshort
  · intro s N hpos hshort
    exact readScalars_short 'd' 8 rfl s N hpos hshort
  · intro s N hpos hshort
    exact read_float_short .npf32 s N hpos hshort
  · intro s N hpos hshort
    exact read_float_short .npf64 s N hpos hshort

/-- C10 witness: `read_int4(1)` on a stream holding only two bytes fails with
`IOError` and leaves the position advanced past both consumed bytes. -/
theorem C10_reads_not_atomic_on_failure_witness :
    ((⟨[7, 9], 0⟩ : Stream).pos ≤ (⟨[7, 9], 0⟩ : Stream).data.length ∧
      (⟨[7, 9], 0⟩ : Stream).data.length - (⟨[7, 9], 0⟩ : Stream).pos < 1 * 4) ∧
    BinaryFile.read_int4 ⟨[7, 9], 0⟩ 1 =
      (.error .ioError, ⟨[7, 9], 0 + (2 - 0)⟩) :=
  ⟨⟨by decide, by decide⟩,
    C10_reads_not_atomic_on_failure.2.2.1 ⟨[7, 9], 0⟩ 1 (by decide) (by decide)⟩

theorem scalarRes_ok {x : Except PyErr (List PyVal)} {r : RRes}
    (h : scalarRes x = .ok r) : ∃ v, r = .one v := by
  rcases x with e | vs
  · exact absurd h (by simp [scalarRes])
  · rcases vs with _ | ⟨v, rest⟩
    · exact absurd h (by simp [scalarRes])
    · refine ⟨v, ?_⟩
      have hr : scalarRes (.ok (v :: rest)) = .ok (.one v) := rfl
      rw [hr] at h
      injection h with h
      exact h.symm

theorem dtypedScalarRes_ok {d : DType} {x : Except PyErr (List PyVal)} {r : RRes}
    (h : BinaryFile.dtypedScalarRes d x = .ok r) : ∃ v, r = .one v := by
  rcases x with e | vs
  · exact absurd h (by simp [BinaryFile.dtypedScalarRes])
  · rcases vs with _ | ⟨v, rest⟩
    · exact absurd h (by simp [BinaryFile.dtypedScalarRes])
    · refine ⟨applyDType d v, ?_⟩
      have hr : BinaryFile.dtypedScalarRes d (.ok (v :: rest)) =
          .ok (.one (applyDType d v)) := rfl
      rw [hr] at h
      injection h with h
      exact h.symm

theorem unpack_repCount_ok {n : Nat} {c : Char} {buf : List Nat} {vs : List PyVal}
    (h : BinaryFile.unpack (.repCount n c) buf = .ok vs) : vs.length = n := by
  rcases hs : structUnpack (.repCount n c) buf with e | vs'
  · simp only [BinaryFile.unpack, hs] at h
    split at h <;> simp at h
  · simp only [BinaryFile.unpack, hs] at h
    injection h with h
    subst h
    simp only [structUnpack, unpackCount] at hs
    split at hs
    · simp at hs
    · split at hs
      · injection hs with hs
        rw [← hs, decodeSeq_length]
      · simp at hs

theorem readScalars_shape (c : Char) (w : Nat) (s : Stream) (N : Nat)
    {r : RRes} {s1 : Stream} (h : BinaryFile.readScalars c w s N = (.ok r, s1)) :
    (N = 1 → ∃ v, r = .one v) ∧
    (N ≠ 1 → ∃ vs, vs.length = N ∧ r = .many vs) := by
  constructor
  · intro h1
    subst h1
    rw [BinaryFile.readScalars, if_pos rfl, Prod.mk.injEq] at h
    exact scalarRes_ok h.1
  · intro hN
    rw [BinaryFile.readScalars, if_neg hN, Prod.mk.injEq] at h
    obtain ⟨h1, _⟩ := h
    rcases hu : BinaryFile.unpack (.repCount N c) (fread s (N * w)).1 with e | vs
    · rw [hu] at h1
      exact absurd h1 (by simp [sliceRes])
    · have hlen := unpack_repCount_ok hu
      rw [hu] at h1
      refine ⟨vs.take N, by rw [List.length_take, hlen, Nat.min_self], ?_⟩
      have hr : sliceRes N (.ok vs) = .ok (.many (vs.take N)) := rfl
      rw [hr] at h1
      injection h1 with h1
      exact h1.symm

theorem read_float_shape (d : DType) (s : Stream) (N : Nat)
    {r : RRes} {s1 : Stream} (h : BinaryFile.read_float s N d = (.ok r, s1)) :
    (N = 1 → ∃ v, r = .one v) ∧
    (N ≠ 1 → ∃ vs, vs.length = N ∧ r = .many vs) := by
  constructor
  · intro h1
    subst h1
    rw [BinaryFile.read_float, if_pos rfl, Prod.mk.injEq] at h
    exact dtypedScalarRes_ok h.1
  · intro hN
    rw [BinaryFile.read_float, if_neg hN, Prod.mk.injEq] at h
    obtain ⟨h1, _⟩ := h
    rcases hu : BinaryFile.unpack (.repCount N 'f') (fread s (N * 4)).1 with e | vs
    · rw [hu] at h1
      exact absurd h1 (by simp [BinaryFile.dtypedListRes])
    · have hlen := unpack_repCount_ok hu
      rw [hu] at h1
      refine ⟨(vs.take N).map (applyDType d),
        by rw [List.length_map, List.length_take, hlen, Nat.min_self], ?_⟩
      have hr : BinaryFile.dtypedListRes d N (.ok vs) =
          .ok (.many ((vs.take N).map (applyDType d))) := rfl
      rw [hr] at h1
      injection h1 with h1
      exact h1.symm

/-- C6: result shaping of the typed scalar reads. Whenever such a read
returns (rather than raising), a count of `N = 1` produced a bare scalar and a
count of `N > 1` produced an ordered sequence of exactly `N` values (the
`[:N]` slice guarantees exactly `N` even if the unpack step had yielded
more). -/
theorem C6_result_shape :
    (∀ (s : Stream) (N : Nat) (r : RRes) (s1 : Stream),
      BinaryFile.read_int1 s N = (.ok r, s1) →
      (N = 1 → ∃ v, r = .one v) ∧ (1 < N → ∃ vs, vs.length = N ∧ r = .many vs)) ∧
    (∀ (s : Stream) (N : Nat) (r : RRes) (s1 : Stream),
      BinaryFile.read_int2 s N = (.ok r, s1) →
      (N = 1 → ∃ v, r = .one v) ∧ (1 < N → ∃ vs, vs.length = N ∧ r = .many vs)) ∧
    (∀ (s : Stream) (N : Nat) (r : RRes) (s1 : Stream),
      BinaryFile.read_int4 s N = (.ok r, s1) →
      (N = 1 → ∃ v, r = .one v) ∧ (1 < N → ∃ vs, vs.length = N ∧ r = .many vs)) ∧
    (∀ (s : Stream) (N : Nat) (r : RRes) (s1 : Stream),
      BinaryFile.read_int8 s N = (.ok r, s1) →
      (N = 1 → ∃ v, r = .one v) ∧ (1 < N → ∃ vs, vs.length = N ∧ r = .many vs)) ∧
    (∀ (s : Stream) (N : Nat) (r : RRes) (s1 : Stream),
      BinaryFile.read_int s N = (.ok r, s1) →
      (N = 1 → ∃ v, r = .one v) ∧ (1 < N → ∃ vs, vs.length = N ∧ r = .many vs)) ∧
    (∀ (d : DType) (s : Stream) (N : Nat) (r : RRes) (s1 : Stream),
      BinaryFile.read_float s N d = (.ok r, s1) →
      (N = 1 → ∃ v, r = .one v) ∧ (1 < N → ∃ vs, vs.length = N ∧ r = .many vs)) ∧
    (∀ (s : Stream) (N : Nat) (r : RRes) (s1 : Stream),
      BinaryFile.read_double s N = (.ok r, s1) →
      (N = 1 → ∃ v, r = .one v) ∧ (1 < N → ∃ vs, vs.length = N ∧ r = .many vs)) ∧
    (∀ (s : Stream) (N : Nat) (r : RRes) (s1 : Stream),
      BinaryFile.read_real4 s N = (.ok r, s1) →
      (N = 1 → ∃ v, r = .one v) ∧ (1 < N → ∃ vs, vs.length = N ∧ r = .many vs)) ∧
    (∀ (s : Stream) (N : Nat) (r : RRes) (s1 : Stream),
      BinaryFile.read_real8 s N = (.ok r, s1) →
      (N = 1 → ∃ v, r = .one v) ∧ (1 < N → ∃ vs, vs.length = N ∧ r = .many vs)) := by
  have hshape : ∀ (c : Char) (w : Nat) (s : Stream) (N : Nat) (r : RRes) (s1 : Stream),
      BinaryFile.readScalars c w s N = (.ok r, s1) →
      (N = 1 → ∃ v, r = .one v) ∧ (1 < N → ∃ vs, vs.length = N ∧ r = .many vs) := by
    intro c w s N r s1 h
    have := readScalars_shape c w s N h
    exact ⟨this.1, fun hlt => this.2 (by omega)⟩
  have hfshape : ∀ (d : DType) (s : Stream) (N : Nat) (r : RRes) (s1 : Stream),
      BinaryFile.read_float s N d = (.ok r, s1) →
      (N = 1 → ∃ v, r = .one v) ∧ (1 < N → ∃ vs, vs.length = N ∧ r = .many vs) := by
    intro d s N r s1 h
    have := read_float_shape d s N h
    exact ⟨this.1, fun hlt => this.2 (by omega)⟩
  refine ⟨?_, fun s N => hshape 'h' 2 s N, fun s N => hshape 'i' 4 s N,
    fun s N => hshape 'l' 8 s N, fun s N => hshape 'i' 4 s N, hfshape,
    fun s N => hshape 'd' 8 s N, fun s N => hfshape .npf32 s N,
    fun s N => hfshape .npf64 s N⟩
  intro s N r s1 h
  by_cases hN : N = 1
  · subst hN
    exact ⟨fun _ => scalarRes_ok (congrArg Prod.fst h), fun hlt => absurd hlt (by omega)⟩
  · have herr := read_int1_multi_ioError s N hN
    rw [h] at herr
    exact absurd herr (by simp)

/-- C6 witness: `read_int2` with `N = 2` on four bytes returned the sequence
`(1, 2)`, which the shape theorem certifies to be a `many`-result of exactly
two values. -/
theorem C6_result_shape_witness :
    ∃ vs, vs.length = 2 ∧ RRes.many [PyVal.intv 1, PyVal.intv 2] = RRes.many vs :=
  (C6_result_shape.2.1 ⟨[1, 0, 2, 0], 0⟩ 2 (.many [.intv 1, .intv 2]) ⟨[1, 0, 2, 0], 4⟩
    rfl).2 (by omega)

theorem fread_exact (s : Stream) (n : Nat) (h : s.pos + n ≤ s.data.length) :
    fread s n = ((s.data.drop s.pos).take n, ⟨s.data, s.pos + n⟩) ∧
    fread ⟨s.data.take (s.pos + n), s.pos⟩ n =
      ((s.data.drop s.pos).take n, ⟨s.data.take (s.pos + n), s.pos + n⟩) := by
  have hlen : ((s.data.drop s.pos).take n).length = n := by
    rw [List.length_take, List.length_drop]
    omega
  have hslice : (s.data.take (s.pos + n)).drop s.pos = (s.data.drop s.pos).take n := by
    rw [List.drop_take]
    congr 1
    omega
  constructor
  · rw [fread, hlen]
  · rw [fread]
    simp only [hslice]
    rw [List.take_of_length_le (le_of_eq hlen), hlen]

theorem readScalars_exact (c : Char) (w : Nat) (s : Stream) (N : Nat)
    (h : s.pos + N * w ≤ s.data.length) :
    ∃ r, BinaryFile.readScalars c w s N = (r, ⟨s.data, s.pos + N * w⟩) ∧
      BinaryFile.readScalars c w ⟨s.data.take (s.pos + N * w), s.pos⟩ N =
        (r, ⟨s.data.take (s.pos + N * w), s.pos + N * w⟩) := by
  by_cases h1 : N = 1
  · subst h1
    rw [one_mul] at h ⊢
    obtain ⟨hf1, hf2⟩ := fread_exact s w h
    refine ⟨scalarRes (BinaryFile.unpack (.code c) ((s.data.drop s.pos).take w)), ?_, ?_⟩
    · rw [BinaryFile.readScalars, if_pos rfl, hf1]
    · rw [BinaryFile.readScalars, if_pos rfl, hf2]
  · obtain ⟨hf1, hf2⟩ := fread_exact s (N * w) h
    refine ⟨sliceRes N (BinaryFile.unpack (.repCount N c)
      ((s.data.drop s.pos).take (N * w))), ?_, ?_⟩
    · rw [BinaryFile.readScalars, if_neg h1, hf1]
    · rw [BinaryFile.readScalars, if_neg h1, hf2]

theorem read_float_exact (d : DType) (s : Stream) (N : Nat)
    (h : s.pos + N * 4 ≤ s.data.length) :
    ∃ r, BinaryFile.read_float s N d = (r, ⟨s.data, s.pos + N * 4⟩) ∧
      BinaryFile.read_float ⟨s.data.take (s.pos + N * 4), s.pos⟩ N d =
        (r, ⟨s.data.take (s.pos + N * 4), s.pos + N * 4⟩) := by
  by_cases h1 : N = 1
  · subst h1
    rw [one_mul] at h ⊢
    obtain ⟨hf1, hf2⟩ := fread_exact s 4 h
    refine ⟨BinaryFile.dtypedScalarRes d (BinaryFile.unpack (.code 'f')
      ((s.data.drop s.pos).take 4)), ?_, ?_⟩
    · rw [BinaryFile.read_float, if_pos rfl, hf1]
    · rw [BinaryFile.read_float, if_pos rfl, hf2]
  · obtain ⟨hf1, hf2⟩ := fread_exact s (N * 4) h
    refine ⟨BinaryFile.dtypedListRes d N (BinaryFile.unpack (.repCount N 'f')
      ((s.data.drop s.pos).take (N * 4))), ?_, ?_⟩
    · rw [BinaryFile.read_float, if_neg h1, hf1]
    · rw [BinaryFile.read_float, if_neg h1, hf2]

theorem read_int1_exact (s : Stream) (N : Nat) (h : s.pos + N * 1 ≤ s.data.length) :
    ∃ r, BinaryFile.read_int1 s N = (r, ⟨s.data, s.pos + N * 1⟩) ∧
      BinaryFile.read_int1 ⟨s.data.take (s.pos + N * 1), s.pos⟩ N =
        (r, ⟨s.data.take (s.pos + N * 1), s.pos + N * 1⟩) := by
  by_cases h1 : N = 1
  · subst h1
    exact readScalars_exact 'b' 1 s 1 h
  · obtain ⟨hf1, hf2⟩ := fread_exact s (N * 1) h
    refine ⟨sliceRes N (BinaryFile.unpack (.braceLiteral 'b')
      ((s.data.drop s.pos).take (N * 1))), ?_, ?_⟩
    · rw [BinaryFile.read_int1, if_neg h1, hf1]
    · rw [BinaryFile.read_int1, if_neg h1, hf2]

theorem read_char_exact (s : Stream) (h : s.pos + 1 ≤ s.data.length) :
    ∃ r, BinaryFile.read_char s = (r, ⟨s.data, s.pos + 1⟩) ∧
      BinaryFile.read_char ⟨s.data.take (s.pos + 1), s.pos⟩ =
        (r, ⟨s.data.take (s.pos + 1), s.pos + 1⟩) := by
  obtain ⟨hf1, hf2⟩ := fread_exact s 1 h
  refine ⟨BinaryFile.decodeOneUtf8 ((s.data.drop s.pos).take 1), ?_, ?_⟩
  · rw [BinaryFile.read_char, hf1]
  · rw [BinaryFile.read_char, hf2]

/-- C9: stream-position invariant. Every typed read of width `w` and count
`N`, given at least `w × N` bytes before end-of-stream, consumes exactly
`w × N` bytes: it advances the position by exactly that amount, leaves the
contents untouched, and — no buffering or look-ahead — computes the very same
result on the stream truncated right after those bytes (`read_char` likewise
consumes exactly one byte). -/
theorem C9_position_invariant :
    (∀ (s : Stream) (N : Nat), s.pos + N * 1 ≤ s.data.length →
      ∃ r, BinaryFile.read_int1 s N = (r, ⟨s.data, s.pos + N * 1⟩) ∧
        BinaryFile.read_int1 ⟨s.data.take (s.pos + N * 1), s.pos⟩ N =
          (r, ⟨s.data.take (s.pos + N * 1), s.pos + N * 1⟩)) ∧
    (∀ (s : Stream) (N : Nat), s.pos + N * 2 ≤ s.data.length →
      ∃ r, BinaryFile.read_int2 s N = (r, ⟨s.data, s.pos + N * 2⟩) ∧
        BinaryFile.read_int2 ⟨s.data.take (s.pos + N * 2), s.pos⟩ N =
          (r, ⟨s.data.take (s.pos + N * 2), s.pos + N * 2⟩)) ∧
    (∀ (s : Stream) (N : Nat), s.pos + N * 4 ≤ s.data.length →
      ∃ r, BinaryFile.read_int4 s N = (r, ⟨s.data, s.pos + N * 4⟩) ∧
        BinaryFile.read_int4 ⟨s.data.take (s.pos + N * 4), s.pos⟩ N =
          (r, ⟨s.data.take (s.pos + N * 4), s.pos + N * 4⟩)) ∧
    (∀ (s : Stream) (N : Nat), s.pos + N * 8 ≤ s.data.length →
      ∃ r, BinaryFile.read_int8 s N = (r, ⟨s.data, s.pos + N * 8⟩) ∧
        BinaryFile.read_int8 ⟨s.data.take (s.pos + N * 8), s.pos⟩ N =
          (r, ⟨s.data.take (s.pos + N * 8), s.pos + N * 8⟩)) ∧
    (∀ (s : Stream) (N : Nat), s.pos + N * 4 ≤ s.data.length →
      ∃ r, BinaryFile.read_int s N = (r, ⟨s.data, s.pos + N * 4⟩) ∧
        BinaryFile.read_int ⟨s.data.take (s.pos + N * 4), s.pos⟩ N =
          (r, ⟨s.data.take (s.pos + N * 4), s.pos + N * 4⟩)) ∧
    (∀ (d : DType) (s : Stream) (N : Nat), s.pos + N * 4 ≤ s.data.length →
      ∃ r, BinaryFile.read_float s N d = (r, ⟨s.data, s.pos + N * 4⟩) ∧
        BinaryFile.read_float ⟨s.data.take (s.pos + N * 4), s.pos⟩ N d =
          (r, ⟨s.data.take (s.pos + N * 4), s.pos + N * 4⟩)) ∧
    (∀ (s : Stream) (N : Nat), s.pos + N * 8 ≤ s.data.length →
      ∃ r, BinaryFile.read_double s N = (r, ⟨s.data, s.pos + N * 8⟩) ∧
        BinaryFile.read_double ⟨s.data.take (s.pos + N * 8), s.pos⟩ N =
          (r, ⟨s.data.take (s.pos + N * 8), s.pos + N * 8⟩)) ∧
    (∀ (s : Stream) (N : Nat), s.pos + N * 4 ≤ s.data.length →
      ∃ r, BinaryFile.read_real4 s N = (r, ⟨s.data, s.pos + N * 4⟩) ∧
        BinaryFile.read_real4 ⟨s.data.take (s.pos + N * 4), s.pos⟩ N =
          (r, ⟨s.data.take (s.pos + N * 4), s.pos + N * 4⟩)) ∧
    (∀ (s : Stream) (N : Nat), s.pos + N * 4 ≤ s.data.length →
      ∃ r, BinaryFile.read_real8 s N = (r, ⟨s.data, s.pos + N * 4⟩) ∧
        BinaryFile.read_real8 ⟨s.data.take (s.pos + N * 4), s.pos⟩ N =
          (r, ⟨s.data.take (s.pos + N * 4), s.pos + N * 4⟩)) ∧
    (∀ s : Stream, s.pos + 1 ≤ s.data.length →
      ∃ r, BinaryFile.read_char s = (r, ⟨s.data, s.pos + 1⟩) ∧
        BinaryFile.read_char ⟨s.data.take (s.pos + 1), s.pos⟩ =
          (r, ⟨s.data.take (s.pos + 1), s.pos + 1⟩)) :=
  ⟨read_int1_exact,
    fun s N => readScalars_exact 'h' 2 s N,
    fun s N => readScalars_exact 'i' 4 s N,
    fun s N => readScalars_exact 'l' 8 s N,
    fun s N => readScalars_exact 'i' 4 s N,
    fun d s N => read_float_exact d s N,
    fun s N => readScalars_exact 'd' 8 s N,
    fun s N => read_float_exact .npf32 s N,
    fun s N => read_float_exact .npf64 s N,
    read_char_exact⟩

/-- C9 witness: `read_int2(2)` on the four bytes `[1, 0, 2, 0]` advances the
position by exactly `2 × 2 = 4` and computes the same result on the stream
truncated to those four bytes. -/
theorem C9_position_invariant_witness :
    ((⟨[1, 0, 2, 0], 0⟩ : Stream).pos + 2 * 2 ≤
      (⟨[1, 0, 2, 0], 0⟩ : Stream).data.length) ∧
    ∃ r, BinaryFile.read_int2 ⟨[1, 0, 2, 0], 0⟩ 2 = (r, ⟨[1, 0, 2, 0], 0 + 2 * 2⟩) ∧
      BinaryFile.read_int2 ⟨[1, 0, 2, 0].take (0 + 2 * 2), 0⟩ 2 =
        (r, ⟨[1, 0, 2, 0].take (0 + 2 * 2), 0 + 2 * 2⟩) :=
  ⟨by decide, C9_position_invariant.2.1 ⟨[1, 0, 2, 0], 0⟩ 2 (by decide)⟩

theorem charOfNat_toNat {n : Nat} (h : n < 128) : (Char.ofNat n).toNat = n := by
  have hv : n.isValidChar := Or.inl (by omega)
  rw [Char.ofNat, dif_pos hv]
  simp [Char.ofNatAux, Char.toNat, UInt32.toNat, BitVec.toNat_ofNatLt]

theorem charOfNat_inj {a b : Nat} (ha : a < 128) (hb : b < 128)
    (h : Char.ofNat a = Char.ofNat b) : a = b := by
  have := congrArg Char.toNat h
  rwa [charOfNat_toNat ha, charOfNat_toNat hb] at this

theorem lineBytes_nil : lineBytes [] = [] := rfl

theorem readlineAux_ascii (data : List Nat) (hascii : ∀ b ∈ data, b < 128) :
    ∀ (fuel pos : Nat) (acc : List Char), data.length - pos ≤ fuel →
      BinaryFile.readlineAux ⟨data, pos⟩ acc =
        (.ok (acc ++ (lineBytes (data.drop pos)).map Char.ofNat),
         ⟨data, pos + (lineBytes (data.drop pos)).length⟩) := by
  intro fuel
  induction fuel with
  | zero =>
    intro pos acc hle
    have hd : data.drop pos = [] := by
      rw [List.drop_eq_nil_iff]
      omega
    have hrc := BinaryFile.read_char_eof ⟨data, pos⟩ (by show data.length ≤ pos; omega)
    rw [BinaryFile.readlineAux]
    split
    · rename_i e s1 h
      rw [hrc] at h
      simp at h
    · rename_i b s1 h
      rw [hrc] at h
      injection h with h1 h2
      injection h1 with h1
      subst h2
      rw [dif_pos (Or.inr h1.symm), ← h1, hd, lineBytes_nil]
      simp
  | succ fuel ih0 =>
    intro pos acc hle
    rcases hdrop : data.drop pos with _ | ⟨x, xs⟩
    · have hrc := BinaryFile.read_char_eof ⟨data, pos⟩ (by
        show data.length ≤ pos
        rw [List.drop_eq_nil_iff] at hdrop
        omega)
      rw [BinaryFile.readlineAux]
      split
      · rename_i e s1 h
        rw [hrc] at h
        simp at h
      · rename_i b s1 h
        rw [hrc] at h
        injection h with h1 h2
        injection h1 with h1
        subst h2
        rw [dif_pos (Or.inr h1.symm), ← h1, lineBytes_nil]
        simp
    · have hx : x < 128 := hascii x (by
        have : x ∈ data.drop pos := by rw [hdrop]; exact List.mem_cons_self ..
        exact List.mem_of_mem_drop this)
      have hposlt : pos < data.length := by
        by_contra hge
        rw [List.drop_eq_nil_iff.mpr (by omega)] at hdrop
        exact List.noConfusion hdrop
      have hrc : BinaryFile.read_char ⟨data, pos⟩ =
          (.ok [Char.ofNat x], ⟨data, pos + 1⟩) := by
        rw [BinaryFile.read_char_cons (s := ⟨data, pos⟩) hdrop]
        simp [BinaryFile.decodeOneUtf8, hx]
      have hxs : data.drop (pos + 1) = xs := by
        have : data.drop (pos + 1) = (data.drop pos).drop 1 := by
          rw [List.drop_drop, Nat.add_comm]
        rw [this, hdrop]
        rfl
      rw [BinaryFile.readlineAux]
      split
      · rename_i e s1 h
        rw [hrc] at h
        simp at h
      · rename_i b s1 h
        rw [hrc] at h
        injection h with h1 h2
        injection h1 with h1
        subst h2
        by_cases hx10 : x = 10
        · subst hx10
          rw [dif_pos (Or.inl h1.symm), ← h1]
          simp [lineBytes]
        · have hbne : ¬(b = [Char.ofNat 10] ∨ b = []) := by
            rw [← h1]
            push_neg
            refine ⟨?_, by simp⟩
            intro hc
            injection hc with hc
            exact hx10 (charOfNat_inj hx (by omega) hc)
          rw [dif_neg hbne, ← h1]
          rw [ih0 (pos + 1) (acc ++ [Char.ofNat x]) (by omega)]
          rw [hxs]
          simp only [lineBytes, if_neg hx10]
          simp only [List.map_cons, List.length_cons, Prod.mk.injEq]
          constructor
          · simp
          · simp
            omega

/-- C7: `readline` accumulates one decoded character at a time and stops at a
newline or at the empty end-of-stream read, returning the accumulated string
including the terminating newline if one was read. On any all-ASCII stream it
returns exactly the characters of the current line (newline included when
present) and advances the position past them; on the stream decoding to
`"abc\ndef"` the three successive calls return `"abc\n"`, then `"def"` with no
trailing newline, then the empty string. -/
theorem C7_readline_spec :
    (∀ (data : List Nat) (pos : Nat), (∀ b ∈ data, b < 128) →
      BinaryFile.readline ⟨data, pos⟩ =
        (.ok ((lineBytes (data.drop pos)).map Char.ofNat),
         ⟨data, pos + (lineBytes (data.drop pos)).length⟩)) ∧
    BinaryFile.readline ⟨[97, 98, 99, 10, 100, 101, 102], 0⟩ =
      (.ok ['a', 'b', 'c', '\n'], ⟨[97, 98, 99, 10, 100, 101, 102], 4⟩) ∧
    BinaryFile.readline ⟨[97, 98, 99, 10, 100, 101, 102], 4⟩ =
      (.ok ['d', 'e', 'f'], ⟨[97, 98, 99, 10, 100, 101, 102], 7⟩) ∧
    BinaryFile.readline ⟨[97, 98, 99, 10, 100, 101, 102], 7⟩ =
      (.ok [], ⟨[97, 98, 99, 10, 100, 101, 102], 7⟩) := by
  have hgen : ∀ (data : List Nat) (pos : Nat), (∀ b ∈ data, b < 128) →
      BinaryFile.readline ⟨data, pos⟩ =
        (.ok ((lineBytes (data.drop pos)).map Char.ofNat),
         ⟨data, pos + (lineBytes (data.drop pos)).length⟩) := by
    intro data pos hascii
    rw [BinaryFile.readline, readlineAux_ascii data hascii data.length pos [] (by omega)]
    simp
  refine ⟨hgen, ?_, ?_, ?_⟩
  · rw [hgen _ _ (by decide)]
    rfl
  · rw [hgen _ _ (by decide)]
    rfl
  · rw [hgen _ _ (by decide)]
    rfl

/-- C7 witness: the general line-read law applied to the concrete two-byte
line `"hi\n"`. -/
theorem C7_readline_spec_witness :
    (∀ b ∈ [104, 105, 10], b < 128) ∧
    BinaryFile.readline ⟨[104, 105, 10], 0⟩ =
      (.ok ((lineBytes (([104, 105, 10] : List Nat).drop 0)).map Char.ofNat),
       ⟨[104, 105, 10], 0 + (lineBytes (([104, 105, 10] : List Nat).drop 0)).length⟩) :=
  ⟨by decide, C7_readline_spec.1 [104, 105, 10] 0 (by decide)⟩

/-- C8: `read_real4(1)` and `read_real8(1)` consume exactly the same four
input bytes as `read_float(1)` (identical final stream in all cases, including
failures), and on success all three carry the same underlying numeric value —
the IEEE binary32 decoding of those four bytes — differing only in result
representation: Python `float` for `read_float`'s default, `np.float32` for
`read_real4`, `np.float64` for `read_real8`. -/
theorem C8_real4_real8_float_consistency (s : Stream) :
    (BinaryFile.read_real4 s 1).2 = (BinaryFile.read_float s 1 .pyfloat).2 ∧
    (BinaryFile.read_real8 s 1).2 = (BinaryFile.read_float s 1 .pyfloat).2 ∧
    (s.pos + 4 ≤ s.data.length →
      ∃ q : FVal,
        q = decodeF32 (leNat ((s.data.drop s.pos).take 4)) ∧
        BinaryFile.read_float s 1 .pyfloat =
          (.ok (.one (.floatv q)), ⟨s.data, s.pos + 4⟩) ∧
        BinaryFile.read_real4 s 1 =
          (.ok (.one (.npfloatv q 32)), ⟨s.data, s.pos + 4⟩) ∧
        BinaryFile.read_real8 s 1 =
          (.ok (.one (.npfloatv q 64)), ⟨s.data, s.pos + 4⟩)) := by
  refine ⟨rfl, rfl, ?_⟩
  intro h
  obtain ⟨hf1, _⟩ := fread_exact s 4 h
  have hlen : ((s.data.drop s.pos).take 4).length = 4 := by
    rw [List.length_take, List.length_drop]
    omega
  have hun : BinaryFile.unpack (.code 'f') ((s.data.drop s.pos).take 4) =
      .ok [.floatv (decodeF32 (leNat ((s.data.drop s.pos).take 4)))] := by
    have hds : decodeSeq 'f' 4 1 ((s.data.drop s.pos).take 4) =
        [.floatv (decodeF32 (leNat ((s.data.drop s.pos).take 4)))] := by
      rw [decodeSeq, decodeSeq, List.take_of_length_le (le_of_eq hlen),
        decodeVal, if_pos rfl]
    have hsz : sizeOfCode 'f' = some 4 := rfl
    simp [BinaryFile.unpack, structUnpack, unpackCount, hsz, hlen, hds]
  refine ⟨decodeF32 (leNat ((s.data.drop s.pos).take 4)), rfl, ?_, ?_, ?_⟩
  · rw [BinaryFile.read_float, if_pos rfl, hf1]
    simp [hun, BinaryFile.dtypedScalarRes, applyDType, valOf]
  · rw [BinaryFile.read_real4, BinaryFile.read_float, if_pos rfl, hf1]
    simp [hun, BinaryFile.dtypedScalarRes, applyDType, valOf]
  · rw [BinaryFile.read_real8, BinaryFile.read_float, if_pos rfl, hf1]
    simp [hun, BinaryFile.dtypedScalarRes, applyDType, valOf]

/-- C8 witness: on the four bytes `00 00 80 3F` (the binary32 encoding of 1.0,
the spec's own example) all three reads consume the same four bytes and decode
the same value, tagged `float`, `np.float32` and `np.float64` respectively. -/
theorem C8_real4_real8_float_consistency_witness :
    ∃ q : FVal,
      q = decodeF32 (leNat ((([0, 0, 128, 63] : List Nat).drop 0).take 4)) ∧
      BinaryFile.read_float ⟨[0, 0, 128, 63], 0⟩ 1 .pyfloat =
        (.ok (.one (.floatv q)), ⟨[0, 0, 128, 63], 0 + 4⟩) ∧
      BinaryFile.read_real4 ⟨[0, 0, 128, 63], 0⟩ 1 =
        (.ok (.one (.npfloatv q 32)), ⟨[0, 0, 128, 63], 0 + 4⟩) ∧
      BinaryFile.read_real8 ⟨[0, 0, 128, 63], 0⟩ 1 =
        (.ok (.one (.npfloatv q 64)), ⟨[0, 0, 128, 63], 0 + 4⟩) :=
  (C8_real4_real8_float_consistency ⟨[0, 0, 128, 63], 0⟩).2.2 (by decide)

/-- C5: `read_int` delegates to `read_int4` and `write_int` to `write_int4`:
for every stream state, count and value, the results and stream effects are
identical. -/
theorem C5_int_aliases (s : Stream) (N : Nat) (val : BinaryFile.WVal) :
    BinaryFile.read_int s N = BinaryFile.read_int4 s N ∧
    BinaryFile.write_int s val = BinaryFile.write_int4 s val :=
  ⟨rfl, rfl⟩

end WindTools
